import Mathlib

set_option synthInstance.maxSize 512

/-!
# Verification of the VRP-solver repository

Shallow embedding of the core of the `Khomiez/VRP-solver` repository
(`src/models/data.py`, `src/models/solution.py`, `src/algorithms/routing.py`,
`src/algorithms/recursive_solver.py`) together with proofs settling the
frozen claims about its behaviour.

Modelling conventions:
* Python `int` node ids are `Int` (negative ids matter for list indexing).
* Distance-matrix entries and route distances are `Nat` (all entries are
  non-negative integers in the source).
* Monetary quantities (fixed cost, fuel cost) are `ℚ`; the `float('inf')`
  sentinels stored in solution records are modelled with `WithTop`.
* Fallible code (Python `IndexError` on list indexing, exceptions
  propagating out of loops) is modelled with `Option`: `none` means the
  computation raises.
* Python's `list.insert`, negative-index wraparound, `itertools`
  enumeration orders and first-strict-minimum selection (`if d < best:`)
  are reproduced exactly; `perms` below enumerates permutations in
  `itertools.permutations` order.
-/

/-- Python list indexing `l[i]`: non-negative indices address from the
front, indices in `[-len, -1]` wrap around to the back, anything else
raises `IndexError` (modelled as `none`). -/
def pyGet {α : Type} (l : List α) (i : Int) : Option α :=
  if 0 ≤ i ∧ i < l.length then l[i.toNat]?
  else if -(l.length : Int) ≤ i ∧ i < 0 then l[(i + l.length).toNat]?
  else none

/-- Python `list.insert(i, x)` (for `0 ≤ i`; an index past the end
appends, exactly as `take`/`drop` saturate). -/
def insertAt {α : Type} (l : List α) (i : Nat) (x : α) : List α :=
  l.take i ++ x :: l.drop i

/-- The `if test_path[-1] != 0: test_path.append(0)` idiom from
`routing.py` (always applied to non-empty paths in the source). -/
def ensureHub (l : List Int) : List Int :=
  if l.getLast? = some 0 then l else l ++ [0]

/-- `distance_matrix` from `src/models/data.py` (9×9, node 0 = Hub,
1–4 = A–D, 5 = G, 6 = H, 7 = E, 8 = F). -/
def distance_matrix : List (List Nat) :=
  [[0, 80, 10, 15, 10, 35, 30, 10, 55],
   [80, 0, 70, 60, 50, 40, 35, 70, 50],
   [10, 70, 0, 20, 10, 40, 40, 40, 50],
   [15, 60, 20, 0, 20, 30, 20, 5, 60],
   [10, 50, 10, 20, 0, 20, 5, 20, 50],
   [35, 40, 40, 30, 20, 0, 10, 10, 70],
   [30, 35, 40, 20, 5, 10, 0, 25, 60],
   [10, 70, 40, 5, 20, 10, 25, 0, 65],
   [55, 50, 50, 60, 50, 70, 60, 65, 0]]

/-- One entry lookup `distance_matrix[a][b]` with Python indexing. -/
def distEntry (dm : List (List Nat)) (a b : Int) : Option Nat :=
  (pyGet dm a).bind fun row => pyGet row b

/-- `sum(distance_matrix[p[k]][p[k+1]] for k in range(len(p) - 1))`:
the total distance along consecutive pairs of a path; `none` if any
lookup raises. -/
def pathDistance (dm : List (List Nat)) : List Int → Option Nat
  | [] => some 0
  | [_] => some 0
  | a :: b :: rest =>
    (distEntry dm a b).bind fun d => (pathDistance dm (b :: rest)).map (d + ·)

/-- `demands` from `src/models/data.py`: delivery demands, node ↦ (H, K).
Note that the waypoint nodes 5 (G) and 6 (H) carry demands here. -/
def demands : List (Int × ℕ × ℕ) :=
  [(1, (1, 0)), (2, (0, 2)), (3, (1, 2)), (4, (1, 0)), (5, (0, 2)), (6, (0, 2))]

/-- Python `demands[n]` / `n in demands`. -/
def demandLookup (n : Int) : Option (ℕ × ℕ) :=
  (demands.find? fun p => p.1 == n).map (·.2)

/-- `set(demands.keys())` — Python iterates a set of small non-negative
ints in increasing order, which for this table is insertion order. -/
def demandKeys : List Int := demands.map (·.1)

/-- One entry of `vehicle_choices`:
`("Name", fixed_cost, h_cap, k_cap, fuel_cost)`. -/
structure Vehicle where
  name : String
  fixed_cost : ℚ
  h_cap : ℕ
  k_cap : ℕ
  fuel_cost : ℚ
deriving DecidableEq

/-- `vehicle_choices` from `src/models/data.py`. -/
def vehicle_choices : List Vehicle :=
  [⟨"V", 150, 2, 2, 1⟩, ⟨"W", 200, 3, 3, 1⟩, ⟨"X", 250, 4, 4, 1⟩,
   ⟨"Y", 350, 5, 5, 1⟩, ⟨"Z", 600, 6, 6, 1⟩]

/-- All ways to pick one element out of a list, each paired with the
remaining elements in their original order (the selection step of
`itertools.permutations`). -/
def picks {α : Type} : List α → List (α × List α)
  | [] => []
  | x :: xs => (x, xs) :: (picks xs).map fun p => (p.1, x :: p.2)

/-- `itertools.permutations` in its enumeration order: pick the first
element from each position left to right, then recurse on the rest.
The fuel argument equals the list length at every call. -/
def permsAux {α : Type} : ℕ → List α → List (List α)
  | 0, _ => [[]]
  | _ + 1, [] => [[]]
  | n + 1, l => (picks l).flatMap fun p => (permsAux n p.2).map fun q => p.1 :: q

/-- `itertools.permutations(l)` (as lists). -/
def perms {α : Type} (l : List α) : List (List α) := permsAux l.length l

/-- The best-so-far fold common to the loops in `routing.py`: start from
`best = (inf, None)` (`acc = none`), walk the items in order, evaluate
`f` on each (a raised exception — `f x = none` — aborts the whole
computation), and keep the first item whose value is strictly below the
best so far.  The outer `Option` is the exception channel, the inner one
the `None`-so-far channel. -/
def runMin {α β : Type} (f : α → Option (Nat × β)) :
    List α → Option (Nat × α × β) → Option (Option (Nat × α × β))
  | [], acc => some acc
  | x :: xs, acc =>
    match f x with
    | none => none
    | some r =>
      let acc' := match acc with
        | none => some (r.1, x, r.2)
        | some best => if r.1 < best.1 then some (r.1, x, r.2) else some best
      runMin f xs acc'

/-- Run the best-so-far loop over a list of candidate full paths,
scoring each by `pathDistance`; returns `(best_distance,
best_full_path)`.  Returns `none` both when a lookup raises and when
there is no candidate at all (the latter arises in the source only for
an empty input path, which `find_best_route` never passes). -/
def runCands (dm : List (List Nat)) (cands : List (List Int)) : Option (Nat × List Int) :=
  match runMin (fun t => (pathDistance dm t).map fun d => (d, ())) cands none with
  | some (some (d, t, _)) => some (d, t)
  | _ => none

/-- The candidate paths of one `Try G then H` / `Try H then G` double
loop of `calculate_route_distance`: insert `a` at position
`i ∈ range(1, len+1)`, then `b` at position `j ∈ range(i, len+2)`, then
append the Hub if needed. -/
def pairCands (path : List Int) (a b : Int) : List (List Int) :=
  (List.range' 1 path.length).flatMap fun i =>
    (List.range' i (path.length + 2 - i)).map fun j =>
      ensureHub (insertAt (insertAt path i a) j b)

/-- Candidates of the both-waypoints-missing branch: `Try G then H`
followed by `Try H then G`, sharing one best-so-far accumulator. -/
def bothCands (path : List Int) : List (List Int) :=
  pairCands path 5 6 ++ pairCands path 6 5

/-- Candidates of the single-waypoint-missing branches: insert `x` at
every position `i ∈ range(1, len+1)`. -/
def singleCands (path : List Int) (x : Int) : List (List Int) :=
  (List.range' 1 path.length).map fun i => ensureHub (insertAt path i x)

/-- `calculate_route_distance` from `src/algorithms/routing.py`:
optimal placement of the waypoints G (5) and H (6) into `path`,
returning `(total_distance, full_path)`. -/
def calculate_route_distance (dm : List (List Nat)) (path : List Int) :
    Option (Nat × List Int) :=
  let g_in_path := (5 : Int) ∈ path
  let h_in_path := (6 : Int) ∈ path
  if ¬g_in_path ∧ ¬h_in_path then
    runCands dm (bothCands path)
  else if ¬g_in_path then
    runCands dm (singleCands path 5)
  else if ¬h_in_path then
    runCands dm (singleCands path 6)
  else
    let full_path := ensureHub path
    (pathDistance dm full_path).map fun d => (d, full_path)

/-- `find_best_route` from `src/algorithms/routing.py`: try every
permutation of the non-waypoint input nodes, place the waypoints
optimally for each, and return `(best_path, best_distance,
best_final_path)`. -/
def find_best_route (dm : List (List Nat)) (nodes : List Int) :
    Option (List Int × Nat × List Int) :=
  if nodes.isEmpty then
    match pathDistance dm [0, 5, 6, 0], pathDistance dm [0, 6, 5, 0] with
    | some dist1, some dist2 =>
      if dist1 ≤ dist2 then some ([0], dist1, [0, 5, 6, 0])
      else some ([0], dist2, [0, 6, 5, 0])
    | _, _ => none
  else
    let permutation_nodes := nodes.filter fun n => decide (¬(n = 5 ∨ n = 6))
    match runMin (fun perm => calculate_route_distance dm ((0 : Int) :: perm))
        (perms permutation_nodes) none with
    | some (some (d, perm, final)) => some ((0 : Int) :: perm, d, final)
    | _ => none

/-- `is_valid_assignment` from `src/algorithms/routing.py`: capacity
check.  Nodes absent from the demand table are silently skipped
(`for n in nodes if n in demands`). -/
def is_valid_assignment (nodes : List Int) (h_cap k_cap : ℕ) : Bool :=
  let total_h := ((nodes.filterMap demandLookup).map (·.1)).sum
  let total_k := ((nodes.filterMap demandLookup).map (·.2)).sum
  decide (total_h ≤ h_cap) && decide (total_k ≤ k_cap)

instance : DecidableEq (WithTop ℚ) := inferInstanceAs (DecidableEq (Option ℚ))

instance : DecidableEq (WithTop ℕ) := inferInstanceAs (DecidableEq (Option ℕ))

/-- One trip tuple, as stored in `current_solution` — the source comment
reads `Store: (name, fixed_cost, nodes_subset, path, distance,
fuel_cost_per_unit, final_path)`. -/
structure Trip where
  name : String
  fixed_cost : ℚ
  nodes_subset : List Int
  path : List Int
  distance : ℕ
  fuel_cost_per_unit : ℚ
  final_path : List Int
deriving DecidableEq

/-- The solution record shared by `VRPSolution` (`src/models/solution.py`)
and the `best_solution` dictionary of `find_optimal_solution`
(`src/algorithms/recursive_solver.py`): the two have exactly the same
keys.  `float('inf')` sentinels are modelled with `WithTop`. -/
structure VRPSolution where
  trips : List Trip
  cost : WithTop ℚ
  fixed_cost : ℚ
  fuel_cost : ℚ
  vehicles_used : WithTop ℕ
  total_distance : WithTop ℚ
  completed : Bool
deriving DecidableEq

/-- `VRPSolution.is_better_than` from `src/models/solution.py`. -/
def is_better_than (self other : VRPSolution) : Bool :=
  if ¬other.completed then self.completed
  else if ¬self.completed then false
  else if self.cost < other.cost then true
  else if self.cost = other.cost ∧ self.vehicles_used < other.vehicles_used then true
  else if self.cost = other.cost ∧ self.vehicles_used = other.vehicles_used ∧
      self.total_distance < other.total_distance then true
  else false

/-- `sum(trip[1] for trip in current_solution)` — total fixed cost of the
accumulated trips (`recursive_solver.py`, base case and pruning block). -/
def trip_fixed_sum (cur : List Trip) : ℚ :=
  (cur.map fun t => t.fixed_cost).sum

/-- `sum(trip[4] * trip[5] for trip in current_solution)` — total fuel
cost (distance times fuel cost per unit). -/
def trip_fuel_sum (cur : List Trip) : ℚ :=
  (cur.map fun t => (t.distance : ℚ) * t.fuel_cost_per_unit).sum

/-- `sum(trip[4] for trip in current_solution)` — total distance. -/
def trip_distance_sum (cur : List Trip) : ℚ :=
  (cur.map fun t => (t.distance : ℚ)).sum

/-- The `better_solution` cascade in the base case of
`find_optimal_solution` (first total cost, then vehicle count, then
total distance, and always accept if no complete solution exists yet). -/
def better_solution_check (total_cost : ℚ) (vehicles_used : ℕ) (total_distance : ℚ)
    (best : VRPSolution) : Bool :=
  if ¬best.completed then true
  else if (total_cost : WithTop ℚ) < best.cost then true
  else if (total_cost : WithTop ℚ) = best.cost ∧
      (vehicles_used : WithTop ℕ) < best.vehicles_used then true
  else if (total_cost : WithTop ℚ) = best.cost ∧
      (vehicles_used : WithTop ℕ) = best.vehicles_used ∧
      (total_distance : WithTop ℚ) < best.total_distance then true
  else false

/-- `min((v[1] for v in available_vehicles if v[0] not in used_vehicles),
default=float('inf'))` — minimum fixed cost among unused vehicles. -/
def min_additional_fixed (avail : List Vehicle) (used : List String) : WithTop ℚ :=
  ((avail.filter fun v => decide (v.name ∉ used)).map
    fun v => (v.fixed_cost : WithTop ℚ)).foldr min ⊤

/-- The pruning block of `find_optimal_solution`
(`src/algorithms/recursive_solver.py`, the `if best_solution["completed"]:`
block): note that `min_additional_fuel_cost` is computed but does not
appear in the comparison, and the 10% buffer is the literal `1.1`. -/
def shouldPrune (nodes : List Int) (best : VRPSolution) (cur : List Trip)
    (avail : List Vehicle) (used : List String) : Bool :=
  if best.completed then
    let current_fixed_cost := trip_fixed_sum cur
    let current_fuel_cost := trip_fuel_sum cur
    let current_cost := current_fixed_cost + current_fuel_cost
    let min_additional_fixed_cost := min_additional_fixed avail used
    let min_dist_between_nodes : ℚ := 5
    let min_additional_fuel_cost : ℚ :=
      if ¬nodes.isEmpty then min_dist_between_nodes * nodes.length else 0
    decide ((current_cost : WithTop ℚ) + min_additional_fixed_cost >
      best.cost * (((11 : ℚ) / 10 : ℚ) : WithTop ℚ))
  else false

/-- The sort key of `sorted_vehicles`:
`(v[2] + v[3]) / (v[1] + 10 * v[4])`. -/
def vehicleEfficiency (v : Vehicle) : ℚ :=
  ((v.h_cap : ℚ) + (v.k_cap : ℚ)) / (v.fixed_cost + 10 * v.fuel_cost)

/-- `sorted([v for v in available_vehicles if v[0] not in used_vehicles],
key=..., reverse=True)`.  Python's `sorted` is stable and `reverse=True`
preserves the order of equal keys; a stable sort is determined uniquely
by the key order and the input order, so the (stable) insertion sort
with the reflected relation computes the same list. -/
def sortVehicles (avail : List Vehicle) (used : List String) : List Vehicle :=
  (avail.filter fun v => decide (v.name ∉ used)).insertionSort
    fun a b => vehicleEfficiency b ≤ vehicleEfficiency a

/-- `itertools.combinations(l, k)` in its enumeration order. -/
def combinations {α : Type} : ℕ → List α → List (List α)
  | 0, _ => [[]]
  | _ + 1, [] => []
  | k + 1, x :: xs => ((combinations k xs).map (x :: ·)) ++ combinations (k + 1) xs

/-- `range(min(len(remaining_nodes), len(remaining_nodes)), 0, -1)` —
subset sizes from largest to smallest. -/
def subset_sizes (n : ℕ) : List ℕ :=
  (List.range n).map fun i => n - i

/-- The base case of `find_optimal_solution` (`if not nodes_to_assign:`):
evaluate the accumulated trips as a candidate complete solution and keep
the better of it and `best`. -/
def base_case_eval (cur : List Trip) (best : VRPSolution) : VRPSolution :=
  let total_fixed_cost := trip_fixed_sum cur
  let total_fuel_cost := trip_fuel_sum cur
  let total_cost := total_fixed_cost + total_fuel_cost
  let vehicles_used := cur.length
  let total_distance := trip_distance_sum cur
  if better_solution_check total_cost vehicles_used total_distance best then
    { trips := cur, cost := (total_cost : WithTop ℚ), fixed_cost := total_fixed_cost,
      fuel_cost := total_fuel_cost, vehicles_used := (vehicles_used : WithTop ℕ),
      total_distance := (total_distance : WithTop ℚ), completed := true }
  else best

/-- `find_optimal_solution` from `src/algorithms/recursive_solver.py`.
The Python recursion terminates because every recursive call removes a
non-empty subset from `nodes_to_assign`; the `fuel` argument makes that
measure explicit (callers pass `nodes.length`, which the recursion can
never exhaust).  Backtracking (`append`/`pop`, `add`/`remove`) is
modelled by passing the extended `cur`/`used` only to the recursive
call.  `none` is the exception channel of `find_best_route`. -/
def find_optimal_solution : ℕ → List Int → List Vehicle → List String →
    List Trip → VRPSolution → Option VRPSolution
  | fuel, nodes, avail, used, cur, best =>
    if nodes.isEmpty then some (base_case_eval cur best)
    else if shouldPrune nodes best cur avail used then some best
    else
      match fuel with
      | 0 => none
      | fuel' + 1 =>
        (sortVehicles avail used).foldlM (fun best v =>
          (subset_sizes (min nodes.length nodes.length)).foldlM (fun best subset_size =>
            (combinations subset_size nodes).foldlM (fun best nodes_subset =>
              if ¬is_valid_assignment nodes_subset v.h_cap v.k_cap then some best
              else
                match find_best_route distance_matrix nodes_subset with
                | none => none
                | some (path, d, final_path) =>
                  find_optimal_solution fuel'
                    (nodes.filter fun n => decide (n ∉ nodes_subset)) avail
                    (used ++ [v.name])
                    (cur ++ [⟨v.name, v.fixed_cost, nodes_subset, path, d,
                      v.fuel_cost, final_path⟩])
                    best)
              best)
            best)
          best

/-- The initial `best_solution` dictionary of `find_optimal_solution`
(all-infinite sentinels, not completed). -/
def initial_best : VRPSolution :=
  { trips := [], cost := ⊤, fixed_cost := 0, fuel_cost := 0,
    vehicles_used := ⊤, total_distance := ⊤, completed := false }

/-- The `restricted_vehicles` handling of `solve_vehicle_routing`:
Python's `if restricted_vehicles:` treats both `None` and the empty list
as falsy. -/
def available_for (restricted_vehicles : Option (List String)) : List Vehicle :=
  match restricted_vehicles with
  | some rl => if rl.isEmpty then vehicle_choices
      else vehicle_choices.filter fun v => decide (v.name ∈ rl)
  | none => vehicle_choices

/-- One formatted trip of the output:
`(name, fixed_cost, trip_fuel_cost, trip_deliveries, path, distance, final_path)`. -/
def format_trip (t : Trip) : String × ℚ × ℚ × List (Int × String × String) ×
    List Int × ℕ × List Int :=
  (t.name, t.fixed_cost, (t.distance : ℚ) * t.fuel_cost_per_unit,
    t.nodes_subset.filterMap fun node =>
      (demandLookup node).map fun dd => (node, s!"H={dd.1}", s!"K={dd.2}"),
    t.path, t.distance, t.final_path)

/-- `solve_vehicle_routing` from `src/algorithms/recursive_solver.py`:
returns `(formatted_trips, total_cost, fixed_cost, fuel_cost,
total_vehicles, total_distance, completed)`. -/
def solve_vehicle_routing (restricted_vehicles : Option (List String)) :
    Option (List (String × ℚ × ℚ × List (Int × String × String) × List Int × ℕ × List Int) ×
      WithTop ℚ × ℚ × ℚ × WithTop ℕ × WithTop ℚ × Bool) :=
  let nodes_to_assign := demandKeys
  let available_vehicles := available_for restricted_vehicles
  match find_optimal_solution nodes_to_assign.length nodes_to_assign
      available_vehicles [] [] initial_best with
  | none => none
  | some solution =>
    if ¬solution.completed then some ([], 0, 0, 0, 0, 0, false)
    else some (solution.trips.map format_trip, solution.cost, solution.fixed_cost,
      solution.fuel_cost, solution.vehicles_used, solution.total_distance, true)

/-! ## Spec-side predicates (stated from the specification's words, for
comparison with the embedded code) -/

/-- A full path that starts at the depot, visits every input node
exactly once, contains each of the two mandatory waypoints exactly
once, and ends at the depot (claim C1's notion of a valid candidate
route). -/
def ValidFullPath (ns q : List Int) : Prop :=
  ∃ m, q = 0 :: (m ++ [0]) ∧ m.Perm (ns ++ [5, 6])

/-- A full path whose two waypoints sit at the tail, immediately before
the final depot (claim C3's required shape). -/
def TailFullPath (ns q : List Int) : Prop :=
  ∃ m, m.Perm ns ∧ (q = 0 :: (m ++ [5, 6, 0]) ∨ q = 0 :: (m ++ [6, 5, 0]))

/-- Claim C3's tail property of a path: the last three visited positions
are the two waypoints (in either order) followed by the depot. -/
def waypointsAtTail (p : List Int) : Bool :=
  decide (p.drop (p.length - 3) = [5, 6, 0] ∨ p.drop (p.length - 3) = [6, 5, 0])

/-- The pruning condition as the spec words it (claim C2): lower bound =
current accumulated cost + minimum fixed cost among remaining unused
vehicles + (minimum-inter-node-distance constant 5) × (number of
remaining unassigned nodes), compared against the best known total cost
inflated by a configurable tolerance fraction. -/
def spec_prune_condition (tolerance : ℚ) (nodes : List Int) (best : VRPSolution)
    (cur : List Trip) (avail : List Vehicle) (used : List String) : Bool :=
  best.completed &&
    decide (((trip_fixed_sum cur + trip_fuel_sum cur : ℚ) : WithTop ℚ) +
      min_additional_fixed avail used + (((5 : ℚ) * nodes.length : ℚ) : WithTop ℚ) >
      best.cost * (((1 + tolerance : ℚ)) : WithTop ℚ))

/-- A concrete recorded-best solution (total cost 100, complete) used to
compare the code's pruning test with the spec's pruning test. -/
def c2_best : VRPSolution :=
  { trips := [], cost := ((100 : ℚ) : WithTop ℚ), fixed_cost := 0, fuel_cost := 0,
    vehicles_used := ((1 : ℕ) : WithTop ℕ), total_distance := ((0 : ℚ) : WithTop ℚ),
    completed := true }

/-- A concrete unused vehicle with fixed cost 110 for the same purpose. -/
def c2_vehicle : Vehicle := ⟨"V1", 110, 1, 1, 1⟩

/-- A concrete complete solution used to exercise the comparator. -/
def c6_complete : VRPSolution :=
  { trips := [], cost := ((10 : ℚ) : WithTop ℚ), fixed_cost := 10, fuel_cost := 0,
    vehicles_used := ((1 : ℕ) : WithTop ℕ), total_distance := ((7 : ℚ) : WithTop ℚ),
    completed := true }

/-! ## Basic lemmas about the helpers -/

lemma insertAt_cons_succ {α : Type} (a : α) (l : List α) (n : ℕ) (x : α) :
    insertAt (a :: l) (n + 1) x = a :: insertAt l n x := by
  simp [insertAt]

lemma insertAt_append {α : Type} (u w : List α) (x : α) :
    insertAt (u ++ w) u.length x = u ++ x :: w := by
  simp [insertAt, List.take_left, List.drop_left]

lemma insertAt_perm {α : Type} (l : List α) (i : ℕ) (x : α) :
    (insertAt l i x).Perm (x :: l) := by
  rw [insertAt]
  calc (l.take i ++ x :: l.drop i).Perm (x :: (l.take i ++ l.drop i)) := List.perm_middle
    _ = x :: l := by rw [List.take_append_drop]

lemma mem_insertAt {α : Type} {y x : α} {l : List α} {i : ℕ} :
    y ∈ insertAt l i x ↔ y = x ∨ y ∈ l := by
  constructor
  · intro h
    exact List.mem_cons.mp ((insertAt_perm l i x).mem_iff.mp h)
  · intro h
    exact (insertAt_perm l i x).mem_iff.mpr (List.mem_cons.mpr h)

lemma count_insertAt {y x : Int} {l : List Int} {i : ℕ} :
    (insertAt l i x).count y = (x :: l).count y :=
  (insertAt_perm l i x).count_eq y

lemma ensureHub_getLast? (l : List Int) : (ensureHub l).getLast? = some 0 := by
  rw [ensureHub]
  split
  · assumption
  · exact List.getLast?_concat l

lemma ensureHub_eq_append {l : List Int} (h : l.getLast? ≠ some 0) :
    ensureHub l = l ++ [0] := by
  rw [ensureHub, if_neg h]

lemma ensureHub_head_cons (a : Int) (m : List Int) :
    (ensureHub (a :: m)).head? = some a := by
  rw [ensureHub]
  split
  · rfl
  · rw [List.cons_append]
    rfl

lemma count_ensureHub {x : Int} (hx : x ≠ 0) (l : List Int) :
    (ensureHub l).count x = l.count x := by
  rw [ensureHub]
  split
  · rfl
  · rw [List.count_append]
    simp [List.count_cons, hx, Ne.symm hx]

lemma mem_ensureHub {y : Int} {l : List Int} (h : y ∈ ensureHub l) :
    y = 0 ∨ y ∈ l := by
  rw [ensureHub] at h
  split at h
  · exact Or.inr h
  · rcases List.mem_append.mp h with h' | h'
    · exact Or.inr h'
    · simp at h'
      exact Or.inl h'

lemma getLast?_mem {α : Type} {l : List α} {a : α} (h : l.getLast? = some a) : a ∈ l := by
  induction l with
  | nil => simp at h
  | cons x xs ih =>
    cases xs with
    | nil =>
      simp [List.getLast?] at h
      simp [h]
    | cons y ys =>
      rw [List.getLast?_cons_cons] at h
      exact List.mem_cons_of_mem x (ih h)

lemma getLast?_cons_of_ne_nil {α : Type} {a : α} {l : List α} (h : l ≠ []) :
    (a :: l).getLast? = l.getLast? := by
  cases l with
  | nil => exact absurd rfl h
  | cons y ys => exact List.getLast?_cons_cons

lemma pyGet_isSome_of {α : Type} {l : List α} {i : Int} (h0 : 0 ≤ i)
    (h : i < l.length) : (pyGet l i).isSome := by
  rw [pyGet, if_pos ⟨h0, h⟩]
  have : i.toNat < l.length := by omega
  rw [List.getElem?_eq_getElem this]
  rfl

lemma pyGet_none_of_big {α : Type} {l : List α} {i : Int} (h : (l.length : Int) ≤ i) :
    pyGet l i = none := by
  rw [pyGet, if_neg (by omega), if_neg (by omega)]

lemma distance_matrix_row_len : ∀ row ∈ distance_matrix, row.length = 9 := by
  decide

lemma distEntry_isSome {a b : Int} (ha0 : 0 ≤ a) (ha : a < 9) (hb0 : 0 ≤ b)
    (hb : b < 9) : (distEntry distance_matrix a b).isSome := by
  rw [distEntry]
  have hlen : (distance_matrix.length : Int) = 9 := by decide
  have h1 : (pyGet distance_matrix a).isSome := pyGet_isSome_of ha0 (by omega)
  obtain ⟨row, hrow⟩ := Option.isSome_iff_exists.mp h1
  rw [hrow]
  have hmem : row ∈ distance_matrix := by
    rw [pyGet, if_pos ⟨ha0, by omega⟩] at hrow
    exact List.getElem?_mem hrow
  have : (row.length : Int) = 9 := by rw [distance_matrix_row_len row hmem]; rfl
  exact pyGet_isSome_of hb0 (by omega)

lemma pathDistance_isSome {p : List Int} (h : ∀ x ∈ p, 0 ≤ x ∧ x < 9) :
    (pathDistance distance_matrix p).isSome := by
  induction p with
  | nil => rw [pathDistance]; rfl
  | cons a rest ih =>
    cases rest with
    | nil => rw [pathDistance]; rfl
    | cons b r =>
      rw [pathDistance]
      have ha := h a (by simp)
      have hb := h b (by simp)
      obtain ⟨d, hd⟩ := Option.isSome_iff_exists.mp (distEntry_isSome ha.1 ha.2 hb.1 hb.2)
      obtain ⟨d2, hd2⟩ := Option.isSome_iff_exists.mp
        (ih fun x hx => h x (List.mem_cons_of_mem a hx))
      rw [hd, hd2]
      rfl

lemma distEntry_none_of_bad_src {dm : List (List Nat)} {n : Int} (b : Int)
    (hbad : pyGet dm n = none) : distEntry dm n b = none := by
  rw [distEntry, hbad]
  rfl

lemma pathDistance_none_of_bad {dm : List (List Nat)} {p : List Int} {n : Int}
    (hn : n ∈ p) (hlast : p.getLast? = some 0) (h0 : n ≠ 0)
    (hbad : pyGet dm n = none) : pathDistance dm p = none := by
  induction p with
  | nil => simp at hn
  | cons a rest ih =>
    cases rest with
    | nil =>
      simp [List.getLast?] at hlast
      simp at hn
      exact absurd (hn ▸ hlast) h0
    | cons b r =>
      rw [pathDistance]
      rcases List.mem_cons.mp hn with rfl | hn'
      · rw [distEntry_none_of_bad_src b hbad]
        rfl
      · have := ih hn' (by rwa [List.getLast?_cons_cons] at hlast)
        rw [this]
        cases distEntry dm a b <;> rfl

/-! ## Lemmas about the best-so-far fold `runMin` -/

lemma runMin_isSome {α β : Type} {f : α → Option (Nat × β)} {xs : List α}
    (h : ∀ x ∈ xs, (f x).isSome) :
    ∀ acc, (runMin f xs acc).isSome := by
  induction xs with
  | nil => intro acc; rw [runMin]; rfl
  | cons x xs ih =>
    intro acc
    rw [runMin]
    obtain ⟨⟨d, b⟩, hd⟩ := Option.isSome_iff_exists.mp (h x (by simp))
    rw [hd]
    exact ih (fun y hy => h y (List.mem_cons_of_mem x hy)) _

lemma runMin_acc_some {α β : Type} {f : α → Option (Nat × β)} {xs : List α} :
    ∀ {a acc r}, acc = some a → runMin f xs acc = some r → ∃ b, r = some b := by
  induction xs with
  | nil =>
    intro a acc r ha hr
    rw [runMin] at hr
    exact ⟨a, by rw [← ha, Option.some_inj.mp hr]⟩
  | cons x xs ih =>
    intro a acc r ha hr
    rw [runMin] at hr
    cases hfx : f x with
    | none => rw [hfx] at hr; exact absurd hr (by simp)
    | some v =>
      rw [hfx, ha] at hr
      dsimp only at hr
      exact ih (a := if v.1 < a.1 then (v.1, x, v.2) else a) (by split <;> rfl) hr

lemma runMin_ne_inner_none {α β : Type} {f : α → Option (Nat × β)} {xs : List α}
    {acc} (hne : xs ≠ []) (h : runMin f xs acc = some none) : False := by
  cases xs with
  | nil => exact hne rfl
  | cons x xs =>
    rw [runMin] at h
    cases hfx : f x with
    | none => rw [hfx] at h; exact absurd h (by simp)
    | some v =>
      rw [hfx] at h
      have : ∃ bb, (none : Option (Nat × α × β)) = some bb := by
        cases hacc : acc with
        | none =>
          rw [hacc] at h
          dsimp only at h
          exact runMin_acc_some rfl h
        | some a =>
          rw [hacc] at h
          dsimp only at h
          exact runMin_acc_some (a := if v.1 < a.1 then (v.1, x, v.2) else a)
            (by split <;> rfl) h
      obtain ⟨bb, hbb⟩ := this
      exact absurd hbb (by simp)

lemma runMin_none_of_all {α β : Type} {f : α → Option (Nat × β)} {xs : List α}
    {acc} (h : ∀ x ∈ xs, f x = none) (hne : xs ≠ []) : runMin f xs acc = none := by
  cases xs with
  | nil => exact absurd rfl hne
  | cons x xs =>
    rw [runMin, h x (by simp)]

lemma runMin_bound {α β : Type} {f : α → Option (Nat × β)} {xs : List α} :
    ∀ {acc d x b}, runMin f xs acc = some (some (d, x, b)) →
      (∀ y ∈ xs, ∀ dy cy, f y = some (dy, cy) → d ≤ dy) ∧
      (∀ a, acc = some a → d ≤ a.1) := by
  induction xs with
  | nil =>
    intro acc d x b hr
    rw [runMin] at hr
    refine ⟨by simp, fun a ha => ?_⟩
    rw [ha] at hr
    simp at hr
    simp [hr]
  | cons y ys ih =>
    intro acc d x b hr
    rw [runMin] at hr
    cases hfy : f y with
    | none => rw [hfy] at hr; exact absurd hr (by simp)
    | some v =>
      rw [hfy] at hr
      dsimp only at hr
      cases hacc : acc with
      | none =>
        rw [hacc] at hr
        dsimp only at hr
        have hih := ih hr
        have hdv : d ≤ v.1 := hih.2 (v.1, y, v.2) rfl
        refine ⟨?_, by simp⟩
        intro z hz dz cz hfz
        rcases List.mem_cons.mp hz with rfl | hz'
        · rw [hfz] at hfy
          cases hfy
          exact hdv
        · exact hih.1 z hz' dz cz hfz
      | some a =>
        rw [hacc] at hr
        dsimp only at hr
        by_cases hlt : v.1 < a.1
        · rw [if_pos hlt] at hr
          have hih := ih hr
          have hdv : d ≤ v.1 := hih.2 (v.1, y, v.2) rfl
          refine ⟨?_, ?_⟩
          · intro z hz dz cz hfz
            rcases List.mem_cons.mp hz with rfl | hz'
            · rw [hfz] at hfy; cases hfy; exact hdv
            · exact hih.1 z hz' dz cz hfz
          · intro a' ha'
            cases Option.some_inj.mp ha'
            exact le_trans hdv (le_of_lt hlt)
        · rw [if_neg hlt] at hr
          have hih := ih hr
          have hda : d ≤ a.1 := hih.2 a rfl
          refine ⟨?_, ?_⟩
          · intro z hz dz cz hfz
            rcases List.mem_cons.mp hz with rfl | hz'
            · rw [hfz] at hfy
              cases hfy
              exact le_trans hda (not_lt.mp hlt)
            · exact hih.1 z hz' dz cz hfz
          · intro a' ha'
            cases Option.some_inj.mp ha'
            exact hda

lemma runMin_attain {α β : Type} {f : α → Option (Nat × β)} {xs : List α} :
    ∀ {acc d x b}, runMin f xs acc = some (some (d, x, b)) →
      (x ∈ xs ∧ f x = some (d, b)) ∨ acc = some (d, x, b) := by
  induction xs with
  | nil =>
    intro acc d x b hr
    rw [runMin] at hr
    exact Or.inr (Option.some_inj.mp hr)
  | cons y ys ih =>
    intro acc d x b hr
    rw [runMin] at hr
    cases hfy : f y with
    | none => rw [hfy] at hr; exact absurd hr (by simp)
    | some v =>
      rw [hfy] at hr
      dsimp only at hr
      cases hacc : acc with
      | none =>
        rw [hacc] at hr
        dsimp only at hr
        rcases ih hr with h | h
        · exact Or.inl ⟨List.mem_cons_of_mem y h.1, h.2⟩
        · cases h
          exact Or.inl ⟨by simp, by rw [hfy]⟩
      | some a =>
        rw [hacc] at hr
        dsimp only at hr
        by_cases hlt : v.1 < a.1
        · rw [if_pos hlt] at hr
          rcases ih hr with h | h
          · exact Or.inl ⟨List.mem_cons_of_mem y h.1, h.2⟩
          · cases h
            exact Or.inl ⟨by simp, by rw [hfy]⟩
        · rw [if_neg hlt] at hr
          rcases ih hr with h | h
          · exact Or.inl ⟨List.mem_cons_of_mem y h.1, h.2⟩
          · exact Or.inr h

/-! ## Corollaries at the `runCands` level -/

lemma runCands_inv {dm : List (List Nat)} {cands : List (List Int)} {c : Nat}
    {t : List Int} (h : runCands dm cands = some (c, t)) :
    runMin (fun u => (pathDistance dm u).map fun d => (d, ())) cands none =
      some (some (c, t, ())) := by
  rw [runCands] at h
  set r := runMin (fun u => (pathDistance dm u).map fun d => (d, ())) cands none with hr
  clear_value r
  match r with
  | none => exact absurd h (by simp)
  | some none => exact absurd h (by simp)
  | some (some (d, u, v)) =>
    simp at h
    rw [h.1, h.2]

lemma runCands_isSome {dm : List (List Nat)} {cands : List (List Int)}
    (h : ∀ t ∈ cands, (pathDistance dm t).isSome) (hne : cands ≠ []) :
    ∃ c t, runCands dm cands = some (c, t) := by
  have h1 : ∀ t ∈ cands, ((fun u => (pathDistance dm u).map fun d => (d, ())) t).isSome := by
    intro t ht
    obtain ⟨d, hd⟩ := Option.isSome_iff_exists.mp (h t ht)
    show ((pathDistance dm t).map fun d => (d, ())).isSome = true
    rw [hd]
    rfl
  obtain ⟨r, hrr⟩ := Option.isSome_iff_exists.mp (runMin_isSome h1 none)
  match r with
  | none => exact absurd hrr fun hc => runMin_ne_inner_none hne hc
  | some (d, u, v) =>
    refine ⟨d, u, ?_⟩
    rw [runCands, hrr]

lemma runCands_bound {dm : List (List Nat)} {cands : List (List Int)} {c : Nat}
    {t : List Int} (h : runCands dm cands = some (c, t)) :
    ∀ u ∈ cands, ∀ du, pathDistance dm u = some du → c ≤ du := by
  intro u hu du hdu
  exact (runMin_bound (runCands_inv h)).1 u hu du () (by rw [hdu]; rfl)

lemma runCands_attain {dm : List (List Nat)} {cands : List (List Int)} {c : Nat}
    {t : List Int} (h : runCands dm cands = some (c, t)) :
    t ∈ cands ∧ pathDistance dm t = some c := by
  rcases runMin_attain (runCands_inv h) with h' | h'
  · refine ⟨h'.1, ?_⟩
    have := h'.2
    cases hpd : pathDistance dm t with
    | none => rw [hpd] at this; exact absurd this (by simp)
    | some d' =>
      rw [hpd] at this
      simp at this
      rw [this]
  · exact absurd h' (by simp)

/-! ## The candidate sets of `calculate_route_distance` -/

lemma mem_pairCands {t path : List Int} {a b : Int} :
    t ∈ pairCands path a b ↔ ∃ i j, 1 ≤ i ∧ i ≤ path.length ∧ i ≤ j ∧
      j ≤ path.length + 1 ∧ t = ensureHub (insertAt (insertAt path i a) j b) := by
  simp only [pairCands, List.mem_flatMap, List.mem_map, List.mem_range'_1]
  constructor
  · rintro ⟨i, ⟨hi1, hi2⟩, j, ⟨hj1, hj2⟩, rfl⟩
    exact ⟨i, j, hi1, by omega, hj1, by omega, rfl⟩
  · rintro ⟨i, j, hi1, hi2, hj1, hj2, rfl⟩
    exact ⟨i, ⟨hi1, by omega⟩, j, ⟨hj1, by omega⟩, rfl⟩

lemma getLast?_cons_ne_zero {m : List Int} (hne : m ≠ []) (h0 : (0 : Int) ∉ m) :
    ((0 : Int) :: m).getLast? ≠ some 0 := by
  rw [getLast?_cons_of_ne_nil hne]
  intro hc
  exact h0 (getLast?_mem hc)

lemma ensureHub_cons_eq {m : List Int} (hne : m ≠ []) (h0 : (0 : Int) ∉ m) :
    ensureHub ((0 : Int) :: m) = 0 :: (m ++ [0]) := by
  rw [ensureHub_eq_append (getLast?_cons_ne_zero hne h0), List.cons_append]

lemma pairCands_decomp {t path : List Int} {a b : Int}
    (ht : t ∈ pairCands ((0 : Int) :: path) a b) :
    ∃ i j, t = ensureHub ((0 : Int) :: insertAt (insertAt path i a) j b) := by
  rcases mem_pairCands.mp ht with ⟨i, j, hi1, hi2, hj1, hj2, rfl⟩
  obtain ⟨i', rfl⟩ : ∃ i', i = i' + 1 := ⟨i - 1, by omega⟩
  obtain ⟨j', rfl⟩ : ∃ j', j = j' + 1 := ⟨j - 1, by omega⟩
  refine ⟨i', j', ?_⟩
  rw [insertAt_cons_succ, insertAt_cons_succ]

lemma pairCands_sound {ns perm : List Int} {a b : Int} (hperm : perm.Perm ns)
    (h0 : (0 : Int) ∉ ns) (hab : a = 5 ∧ b = 6 ∨ a = 6 ∧ b = 5) {t : List Int}
    (ht : t ∈ pairCands ((0 : Int) :: perm) a b) : ValidFullPath ns t := by
  obtain ⟨i, j, rfl⟩ := pairCands_decomp ht
  set m := insertAt (insertAt perm i a) j b with hm
  have hmba : m.Perm (b :: a :: perm) :=
    (insertAt_perm _ j b).trans (List.Perm.cons b (insertAt_perm perm i a))
  have hmns : m.Perm (ns ++ [5, 6]) := by
    have h1 : m.Perm (b :: a :: ns) := hmba.trans ((hperm.cons a).cons b)
    have h2 : (ns ++ [5, 6]).Perm (5 :: 6 :: ns) := List.perm_append_comm
    rcases hab with ⟨rfl, rfl⟩ | ⟨rfl, rfl⟩
    · exact (h1.trans (List.Perm.swap 5 6 ns)).trans h2.symm
    · exact h1.trans h2.symm
  have hmem : ∀ x ∈ m, x ∈ ns ∨ x = 5 ∨ x = 6 := by
    intro x hx
    have := hmns.mem_iff.mp hx
    rcases List.mem_append.mp this with h | h
    · exact Or.inl h
    · simp at h
      exact Or.inr h
  have hne : m ≠ [] := by
    intro hc
    have : b ∈ m := hmba.mem_iff.mpr (by simp)
    rw [hc] at this
    simp at this
  have h0m : (0 : Int) ∉ m := by
    intro hc
    rcases hmem 0 hc with h | h | h
    · exact h0 h
    · exact absurd h (by norm_num)
    · exact absurd h (by norm_num)
  rw [ensureHub_cons_eq hne h0m]
  exact ⟨m, rfl, hmns⟩

lemma pairCands_shape {perm : List Int} {a b : Int} (h5 : (5 : Int) ∉ perm)
    (h6 : (6 : Int) ∉ perm) (hab : a = 5 ∧ b = 6 ∨ a = 6 ∧ b = 5) {t : List Int}
    (ht : t ∈ pairCands ((0 : Int) :: perm) a b) :
    t.head? = some 0 ∧ t.getLast? = some 0 ∧ t.count 5 = 1 ∧ t.count 6 = 1 := by
  obtain ⟨i, j, rfl⟩ := pairCands_decomp ht
  set m := insertAt (insertAt perm i a) j b with hm
  have hmba : m.Perm (b :: a :: perm) :=
    (insertAt_perm _ j b).trans (List.Perm.cons b (insertAt_perm perm i a))
  refine ⟨ensureHub_head_cons 0 m, ensureHub_getLast? _, ?_, ?_⟩
  · rw [count_ensureHub (by norm_num), List.count_cons, hmba.count_eq]
    have : List.count (5 : Int) perm = 0 := List.count_eq_zero.mpr h5
    rcases hab with ⟨rfl, rfl⟩ | ⟨rfl, rfl⟩ <;>
      simp [List.count_cons, this]
  · rw [count_ensureHub (by norm_num), List.count_cons, hmba.count_eq]
    have : List.count (6 : Int) perm = 0 := List.count_eq_zero.mpr h6
    rcases hab with ⟨rfl, rfl⟩ | ⟨rfl, rfl⟩ <;>
      simp [List.count_cons, this]

lemma perm_decomp (u v w2 : List Int) (a b : Int) :
    (u ++ a :: (v ++ b :: w2)).Perm (a :: b :: (u ++ (v ++ w2))) := by
  have s1 : (u ++ a :: (v ++ b :: w2)).Perm (a :: (u ++ (v ++ b :: w2))) :=
    List.perm_middle
  refine s1.trans (List.Perm.cons a ?_)
  have s2 : u ++ (v ++ b :: w2) = (u ++ v) ++ b :: w2 := by simp
  rw [s2]
  have s3 : ((u ++ v) ++ b :: w2).Perm (b :: ((u ++ v) ++ w2)) := List.perm_middle
  simpa using s3

lemma pairCands_cover {a b : Int} (u v w2 : List Int)
    (h0 : (0 : Int) ∉ u ++ a :: (v ++ b :: w2)) :
    (0 : Int) :: ((u ++ a :: (v ++ b :: w2)) ++ [0]) ∈
      pairCands ((0 : Int) :: (u ++ (v ++ w2))) a b := by
  apply mem_pairCands.mpr
  refine ⟨u.length + 1, u.length + v.length + 2, by omega, ?_, by omega, ?_, ?_⟩
  · simp [List.length_append]
  · simp [List.length_append]
  · rw [insertAt_cons_succ]
    have e1 : insertAt (u ++ (v ++ w2)) u.length a = u ++ a :: (v ++ w2) :=
      insertAt_append u (v ++ w2) a
    rw [e1]
    have e2 : u.length + v.length + 2 = (u.length + v.length + 1) + 1 := rfl
    rw [e2, insertAt_cons_succ]
    have e3 : u ++ a :: (v ++ w2) = (u ++ a :: v) ++ w2 := by simp
    have e4 : u.length + v.length + 1 = (u ++ a :: v).length := by
      simp [List.length_append]
      omega
    rw [e3, e4, insertAt_append]
    have e5 : (u ++ a :: v) ++ b :: w2 = u ++ a :: (v ++ b :: w2) := by simp
    rw [e5, ensureHub_cons_eq (by simp) h0]

lemma bothCands_complete {ns q : List Int} (h0 : (0 : Int) ∉ ns)
    (h5 : (5 : Int) ∉ ns) (h6 : (6 : Int) ∉ ns) (hq : ValidFullPath ns q) :
    ∃ perm, perm.Perm ns ∧ q ∈ bothCands ((0 : Int) :: perm) := by
  obtain ⟨m, rfl, hm⟩ := hq
  have hperm56 : (5 :: 6 :: ns).Perm (ns ++ [5, 6]) := by
    have : ((5 : Int) :: 6 :: ns) = [5, 6] ++ ns := rfl
    rw [this]
    exact List.perm_append_comm
  have hc5 : m.count 5 = 1 := by
    rw [hm.count_eq, List.count_append]
    simp [List.count_eq_zero.mpr h5, List.count_cons]
  have h0m : (0 : Int) ∉ m := by
    intro hc
    rcases List.mem_append.mp (hm.mem_iff.mp hc) with h | h
    · exact h0 h
    · simp at h
  have h5m : (5 : Int) ∈ m := hm.mem_iff.mpr (by simp)
  obtain ⟨u, w, huw⟩ := List.append_of_mem h5m
  have h6m : (6 : Int) ∈ m := hm.mem_iff.mpr (by simp)
  rw [huw] at h6m
  rcases List.mem_append.mp h6m with h6u | h6w'
  · -- H occurs before G: covered by the `Try H then G` loop
    obtain ⟨u1, u2, rfl⟩ := List.append_of_mem h6u
    have hmeq : m = u1 ++ 6 :: (u2 ++ 5 :: w) := by
      rw [huw]
      simp
    refine ⟨u1 ++ (u2 ++ w), ?_, ?_⟩
    · have hd : m.Perm (6 :: 5 :: (u1 ++ (u2 ++ w))) := by
        rw [hmeq]
        exact perm_decomp u1 u2 w 6 5
      have hchain : ((5 : Int) :: 6 :: (u1 ++ (u2 ++ w))).Perm (5 :: 6 :: ns) := by
        have s1 : ((5 : Int) :: 6 :: (u1 ++ (u2 ++ w))).Perm (6 :: 5 :: (u1 ++ (u2 ++ w))) :=
          List.Perm.swap 6 5 _
        exact (s1.trans hd.symm).trans (hm.trans hperm56.symm)
      exact (hchain.cons_inv).cons_inv
    · refine List.mem_append.mpr (Or.inr ?_)
      rw [hmeq]
      exact pairCands_cover u1 u2 w (by rw [← hmeq]; exact h0m)
  · rcases List.mem_cons.mp h6w' with h65 | h6w
    · exact absurd h65 (by norm_num)
    · -- G occurs before H: covered by the `Try G then H` loop
      obtain ⟨v, w2, rfl⟩ := List.append_of_mem h6w
      have hmeq : m = u ++ 5 :: (v ++ 6 :: w2) := huw
      refine ⟨u ++ (v ++ w2), ?_, ?_⟩
      · have hd : m.Perm (5 :: 6 :: (u ++ (v ++ w2))) := by
          rw [hmeq]
          exact perm_decomp u v w2 5 6
        have hchain : ((5 : Int) :: 6 :: (u ++ (v ++ w2))).Perm (5 :: 6 :: ns) :=
          hd.symm.trans (hm.trans hperm56.symm)
        exact (hchain.cons_inv).cons_inv
      · refine List.mem_append.mpr (Or.inl ?_)
        rw [hmeq]
        exact pairCands_cover u v w2 (by rw [← hmeq]; exact h0m)

/-! ## Permutation enumeration -/

lemma picks_facts {α : Type} : ∀ {l : List α} {p : α × List α}, p ∈ picks l →
    l.Perm (p.1 :: p.2) ∧ p.2.length + 1 = l.length := by
  intro l
  induction l with
  | nil => intro p hp; simp [picks] at hp
  | cons x xs ih =>
    intro p hp
    rw [picks] at hp
    rcases List.mem_cons.mp hp with rfl | hp'
    · exact ⟨List.Perm.refl _, rfl⟩
    · obtain ⟨q, hq, rfl⟩ := List.mem_map.mp hp'
      obtain ⟨hqp, hql⟩ := ih hq
      refine ⟨(List.Perm.cons x hqp).trans (List.Perm.swap q.1 x q.2), ?_⟩
      simp only [List.length_cons] at hql ⊢
      omega

lemma picks_of_mem {α : Type} {y : α} : ∀ {l : List α}, y ∈ l →
    ∃ ys, (y, ys) ∈ picks l ∧ (y :: ys).Perm l := by
  intro l
  induction l with
  | nil => intro h; simp at h
  | cons x xs ih =>
    intro h
    rcases List.mem_cons.mp h with rfl | h'
    · exact ⟨xs, by rw [picks]; exact List.mem_cons_self _ _, List.Perm.refl _⟩
    · obtain ⟨ys, hmem, hperm⟩ := ih h'
      refine ⟨x :: ys, ?_, ?_⟩
      · rw [picks]
        exact List.mem_cons.mpr (Or.inr (List.mem_map.mpr ⟨(y, ys), hmem, rfl⟩))
      · exact (List.Perm.swap x y ys).trans (List.Perm.cons x hperm)

lemma permsAux_sound {α : Type} : ∀ (n : ℕ) (l m : List α), l.length = n →
    m ∈ permsAux n l → m.Perm l := by
  intro n
  induction n with
  | zero =>
    intro l m hlen hm
    have hl : l = [] := List.length_eq_zero.mp hlen
    subst hl
    rw [permsAux] at hm
    simp at hm
    rw [hm]
  | succ n ih =>
    intro l m hlen hm
    cases l with
    | nil => simp at hlen
    | cons x xs =>
      have hm2 : m ∈ (picks (x :: xs)).flatMap
          fun p => (permsAux n p.2).map fun q => p.1 :: q := hm
      obtain ⟨p, hp, hq⟩ := List.mem_flatMap.mp hm2
      obtain ⟨q, hq2, rfl⟩ := List.mem_map.mp hq
      obtain ⟨hperm, hplen⟩ := picks_facts hp
      have hqlen : p.2.length = n := by
        simp only [List.length_cons] at hlen hplen
        omega
      exact (List.Perm.cons p.1 (ih p.2 q hqlen hq2)).trans hperm.symm

lemma permsAux_complete {α : Type} : ∀ (n : ℕ) (l m : List α), l.length = n →
    m.Perm l → m ∈ permsAux n l := by
  intro n
  induction n with
  | zero =>
    intro l m hlen hm
    have hl : l = [] := List.length_eq_zero.mp hlen
    subst hl
    rw [List.perm_nil.mp hm, permsAux]
    simp
  | succ n ih =>
    intro l m hlen hm
    cases l with
    | nil => simp at hlen
    | cons x xs =>
      cases m with
      | nil =>
        have := hm.length_eq
        simp at this
      | cons y m2 =>
        have hy : y ∈ x :: xs := hm.subset (List.mem_cons_self _ _)
        obtain ⟨ys, hmem, hperm⟩ := picks_of_mem hy
        have hm2 : m2.Perm ys := (hm.trans hperm.symm).cons_inv
        have hyslen : ys.length = n := by
          have h2 := (picks_facts hmem).2
          simp only [List.length_cons] at hlen h2
          omega
        show (y :: m2) ∈ (picks (x :: xs)).flatMap
          fun p => (permsAux n p.2).map fun q => p.1 :: q
        exact List.mem_flatMap.mpr
          ⟨(y, ys), hmem, List.mem_map.mpr ⟨m2, ih ys m2 hyslen hm2, rfl⟩⟩

/-- `perms` enumerates exactly the permutations of its input. -/
lemma mem_perms {α : Type} {l m : List α} : m ∈ perms l ↔ m.Perm l :=
  ⟨permsAux_sound l.length l m rfl, permsAux_complete l.length l m rfl⟩

/-! ## Unfolding the routing functions -/

lemma calculate_both_branch {dm : List (List Nat)} {path : List Int}
    (hg : (5 : Int) ∉ path) (hh : (6 : Int) ∉ path) :
    calculate_route_distance dm path = runCands dm (bothCands path) := by
  simp only [calculate_route_distance]
  rw [if_pos ⟨hg, hh⟩]

lemma find_best_route_nonempty {dm : List (List Nat)} {nodes : List Int}
    (hne : nodes ≠ []) :
    find_best_route dm nodes =
      match runMin (fun perm => calculate_route_distance dm ((0 : Int) :: perm))
          (perms (nodes.filter fun n => decide (¬(n = 5 ∨ n = 6)))) none with
      | some (some (d, perm, final)) => some ((0 : Int) :: perm, d, final)
      | _ => none := by
  rw [find_best_route, if_neg (by simpa [List.isEmpty_iff] using hne)]

lemma filter_nodes_eq {ns : List Int} (h5 : (5 : Int) ∉ ns) (h6 : (6 : Int) ∉ ns) :
    (ns.filter fun n => decide (¬(n = 5 ∨ n = 6))) = ns := by
  apply List.filter_eq_self.mpr
  intro a ha
  simp only [decide_eq_true_eq]
  rintro (rfl | rfl)
  · exact h5 ha
  · exact h6 ha

lemma validFullPath_range {ns q : List Int} (hr : ∀ n ∈ ns, 0 ≤ n ∧ n < 9)
    (hq : ValidFullPath ns q) : ∀ x ∈ q, 0 ≤ x ∧ x < 9 := by
  obtain ⟨m, rfl, hm⟩ := hq
  intro x hx
  rcases List.mem_cons.mp hx with rfl | hx'
  · norm_num
  · rcases List.mem_append.mp hx' with hxm | hx0
    · rcases List.mem_append.mp (hm.mem_iff.mp hxm) with h | h
      · exact hr x h
      · simp at h
        rcases h with rfl | rfl <;> norm_num
    · simp at hx0
      subst hx0
      norm_num

lemma perm_pair {x y : Int} {m : List Int} (h : m.Perm [x, y]) :
    m = [x, y] ∨ m = [y, x] := by
  have hlen := h.length_eq
  match m, h, hlen with
  | [a, b], h, _ =>
    have ha : a = x ∨ a = y := by simpa using h.subset (show a ∈ [a, b] by simp)
    rcases ha with rfl | rfl
    · left
      have hb : [b].Perm [y] := h.cons_inv
      rw [List.perm_singleton.mp hb]
    · right
      have hswap : ([x, a] : List Int).Perm [a, x] := List.Perm.swap a x []
      have hb : [b].Perm [x] := (h.trans hswap).cons_inv
      rw [List.perm_singleton.mp hb]

lemma mem_bothCands_valid {ns perm t : List Int} (hperm : perm.Perm ns)
    (h0 : (0 : Int) ∉ ns) (ht : t ∈ bothCands ((0 : Int) :: perm)) :
    ValidFullPath ns t := by
  rw [bothCands] at ht
  rcases List.mem_append.mp ht with h' | h'
  · exact pairCands_sound hperm h0 (Or.inl ⟨rfl, rfl⟩) h'
  · exact pairCands_sound hperm h0 (Or.inr ⟨rfl, rfl⟩) h'

lemma bothCands_ne_nil (perm : List Int) : bothCands ((0 : Int) :: perm) ≠ [] := by
  have hmem : ensureHub (insertAt (insertAt ((0 : Int) :: perm) 1 5) 1 6) ∈
      pairCands ((0 : Int) :: perm) 5 6 := by
    apply mem_pairCands.mpr
    exact ⟨1, 1, le_refl 1, by simp, le_refl 1, by simp, rfl⟩
  intro hc
  rw [bothCands] at hc
  rcases List.append_eq_nil.mp hc with ⟨h1, _⟩
  rw [h1] at hmem
  simp at hmem

/-- The master specification of `find_best_route` on the real distance
table: for a waypoint-free, depot-free, in-range input it succeeds, its
final path is a valid full path, its reported distance is that path's
distance, and no valid full path is strictly shorter. -/
lemma find_best_route_spec {ns : List Int} (hr : ∀ n ∈ ns, 0 ≤ n ∧ n < 9)
    (h0 : (0 : Int) ∉ ns) (h5 : (5 : Int) ∉ ns) (h6 : (6 : Int) ∉ ns) :
    ∃ p d f, find_best_route distance_matrix ns = some (p, d, f) ∧
      ValidFullPath ns f ∧ pathDistance distance_matrix f = some d ∧
      ∀ q dq, ValidFullPath ns q → pathDistance distance_matrix q = some dq →
        d ≤ dq := by
  by_cases hns : ns = []
  · subst hns
    refine ⟨[0], 75, [0, 5, 6, 0], by decide, ⟨[5, 6], rfl, List.Perm.refl _⟩,
      by decide, ?_⟩
    intro q dq hq hdq
    obtain ⟨m, rfl, hm⟩ := hq
    rcases perm_pair hm with rfl | rfl
    · have h75 : pathDistance distance_matrix [0, 5, 6, 0] = some 75 := by decide
      have : ((0 : Int) :: ([5, 6] ++ [0])) = [0, 5, 6, 0] := rfl
      rw [this, h75] at hdq
      cases hdq
      exact le_refl _
    · have h75 : pathDistance distance_matrix [0, 6, 5, 0] = some 75 := by decide
      have : ((0 : Int) :: ([6, 5] ++ [0])) = [0, 6, 5, 0] := rfl
      rw [this, h75] at hdq
      cases hdq
      exact le_refl _
  · have hfilter := filter_nodes_eq h5 h6
    have hcalc : ∀ perm ∈ perms ns,
        calculate_route_distance distance_matrix ((0 : Int) :: perm) =
          runCands distance_matrix (bothCands ((0 : Int) :: perm)) := by
      intro perm hp
      have hperm : perm.Perm ns := mem_perms.mp hp
      apply calculate_both_branch
      · intro hc
        rcases List.mem_cons.mp hc with h' | h'
        · exact absurd h' (by norm_num)
        · exact h5 (hperm.mem_iff.mp h')
      · intro hc
        rcases List.mem_cons.mp hc with h' | h'
        · exact absurd h' (by norm_num)
        · exact h6 (hperm.mem_iff.mp h')
    have hsome : ∀ perm ∈ perms ns,
        ((fun perm => calculate_route_distance distance_matrix
          ((0 : Int) :: perm)) perm).isSome := by
      intro perm hp
      have hperm : perm.Perm ns := mem_perms.mp hp
      show (calculate_route_distance distance_matrix ((0 : Int) :: perm)).isSome
      rw [hcalc perm hp]
      have hside : ∀ t ∈ bothCands ((0 : Int) :: perm),
          (pathDistance distance_matrix t).isSome := by
        intro t ht
        exact pathDistance_isSome
          (validFullPath_range hr (mem_bothCands_valid hperm h0 ht))
      obtain ⟨c, t, hct⟩ := runCands_isSome hside (bothCands_ne_nil perm)
      rw [hct]
      rfl
    obtain ⟨r, hrm⟩ := Option.isSome_iff_exists.mp (runMin_isSome hsome none)
    match r, hrm with
    | none, hrm =>
      have : perms ns ≠ [] := by
        have : ns ∈ perms ns := mem_perms.mpr (List.Perm.refl ns)
        exact List.ne_nil_of_mem this
      exact absurd hrm fun hc => runMin_ne_inner_none this hc
    | some (d, perm, final), hrm =>
      have hroute : find_best_route distance_matrix ns =
          some ((0 : Int) :: perm, d, final) := by
        rw [find_best_route_nonempty hns, hfilter, hrm]
      have hattain := runMin_attain hrm
      rcases hattain with ⟨hpmem, hFp⟩ | habs
      · have hperm : perm.Perm ns := mem_perms.mp hpmem
        have hrc : runCands distance_matrix (bothCands ((0 : Int) :: perm)) =
            some (d, final) := by
          rw [← hcalc perm hpmem]
          exact hFp
        obtain ⟨hfmem, hfdist⟩ := runCands_attain hrc
        have hvalid : ValidFullPath ns final := mem_bothCands_valid hperm h0 hfmem
        refine ⟨(0 : Int) :: perm, d, final, hroute, hvalid, hfdist, ?_⟩
        intro q dq hq hdq
        obtain ⟨perm0, hp0, hq0⟩ := bothCands_complete h0 h5 h6 hq
        have hp0mem : perm0 ∈ perms ns := mem_perms.mpr hp0
        have hc0some := hsome perm0 hp0mem
        obtain ⟨⟨c0, f0⟩, hc0⟩ := Option.isSome_iff_exists.mp hc0some
        have hb : d ≤ c0 := (runMin_bound hrm).1 perm0 hp0mem c0 f0 hc0
        have hrc0 : runCands distance_matrix (bothCands ((0 : Int) :: perm0)) =
            some (c0, f0) := by
          rw [← hcalc perm0 hp0mem]
          exact hc0
        have hcb : c0 ≤ dq := runCands_bound hrc0 q hq0 dq hdq
        exact le_trans hb hcb
      · exact absurd habs (by simp)

lemma bothCands_shape {perm t : List Int} (h5 : (5 : Int) ∉ perm)
    (h6 : (6 : Int) ∉ perm) (ht : t ∈ bothCands ((0 : Int) :: perm)) :
    t.head? = some 0 ∧ t.getLast? = some 0 ∧ t.count 5 = 1 ∧ t.count 6 = 1 := by
  rw [bothCands] at ht
  rcases List.mem_append.mp ht with h' | h'
  · exact pairCands_shape h5 h6 (Or.inl ⟨rfl, rfl⟩) h'
  · exact pairCands_shape h5 h6 (Or.inr ⟨rfl, rfl⟩) h'

lemma not_mem_filter_waypoints (nodes : List Int) :
    (5 : Int) ∉ (nodes.filter fun n => decide (¬(n = 5 ∨ n = 6))) ∧
    (6 : Int) ∉ (nodes.filter fun n => decide (¬(n = 5 ∨ n = 6))) := by
  constructor <;>
  · intro hc
    have := (List.mem_filter.mp hc).2
    simp at this

/-- Shape of every successful `find_best_route` result, over any
distance table and any input list: the final path starts and ends at
the depot and contains each waypoint exactly once. -/
lemma find_best_route_shape {dm : List (List Nat)} {nodes p f : List Int} {d : Nat}
    (h : find_best_route dm nodes = some (p, d, f)) :
    f.head? = some 0 ∧ f.getLast? = some 0 ∧ f.count 5 = 1 ∧ f.count 6 = 1 := by
  by_cases hns : nodes.isEmpty = true
  · rw [find_best_route, if_pos hns] at h
    cases h1 : pathDistance dm [0, 5, 6, 0] with
    | none =>
      rw [h1] at h
      cases h2 : pathDistance dm [0, 6, 5, 0] <;> rw [h2] at h <;> simp at h
    | some d1 =>
      rw [h1] at h
      cases h2 : pathDistance dm [0, 6, 5, 0] with
      | none => rw [h2] at h; simp at h
      | some d2 =>
        rw [h2] at h
        dsimp only at h
        by_cases hle : d1 ≤ d2
        · rw [if_pos hle] at h
          have hf : f = [0, 5, 6, 0] := by
            have := Option.some_inj.mp h
            exact (congrArg (fun x => x.2.2) this).symm
          subst hf
          refine ⟨rfl, by decide, by decide, by decide⟩
        · rw [if_neg hle] at h
          have hf : f = [0, 6, 5, 0] := by
            have := Option.some_inj.mp h
            exact (congrArg (fun x => x.2.2) this).symm
          subst hf
          refine ⟨rfl, by decide, by decide, by decide⟩
  · rw [find_best_route, if_neg hns] at h
    dsimp only at h
    cases hrm : runMin (fun perm => calculate_route_distance dm ((0 : Int) :: perm))
        (perms (nodes.filter fun n => decide (¬(n = 5 ∨ n = 6)))) none with
    | none => rw [hrm] at h; simp at h
    | some r =>
      rw [hrm] at h
      match r, h with
      | none, h => simp at h
      | some (d', perm, final), h =>
        have hf : f = final := by
          have := Option.some_inj.mp h
          exact (congrArg (fun x => x.2.2) this).symm
        subst hf
        rcases runMin_attain hrm with ⟨hpmem, hFp⟩ | habs
        · have hperm := mem_perms.mp hpmem
          have hflt := not_mem_filter_waypoints nodes
          have h5p : (5 : Int) ∉ perm := fun hc => hflt.1 (hperm.mem_iff.mp hc)
          have h6p : (6 : Int) ∉ perm := fun hc => hflt.2 (hperm.mem_iff.mp hc)
          have hcb : calculate_route_distance dm ((0 : Int) :: perm) =
              runCands dm (bothCands ((0 : Int) :: perm)) := by
            apply calculate_both_branch
            · intro hc
              rcases List.mem_cons.mp hc with h' | h'
              · exact absurd h' (by norm_num)
              · exact h5p h'
            · intro hc
              rcases List.mem_cons.mp hc with h' | h'
              · exact absurd h' (by norm_num)
              · exact h6p h'
          rw [hcb] at hFp
          obtain ⟨hfmem, _⟩ := runCands_attain hFp
          exact bothCands_shape h5p h6p hfmem
        · exact absurd habs (by simp)

lemma mem_ensureHub_of_mem {x : Int} {l : List Int} (h : x ∈ l) : x ∈ ensureHub l := by
  rw [ensureHub]
  split
  · exact h
  · exact List.mem_append.mpr (Or.inl h)

lemma runCands_none_of_all {dm : List (List Nat)} {cands : List (List Int)}
    (h : ∀ t ∈ cands, pathDistance dm t = none) (hne : cands ≠ []) :
    runCands dm cands = none := by
  rw [runCands, runMin_none_of_all (fun t ht => by rw [h t ht]; rfl) hne]

/-- Any input list containing a node id `≥ 9` (outside the 9×9 table)
makes `find_best_route` raise an `IndexError` (modelled as `none`). -/
lemma find_best_route_none_of_big {ns : List Int} {n : Int} (hn : n ∈ ns)
    (h9 : 9 ≤ n) : find_best_route distance_matrix ns = none := by
  have hne : ns ≠ [] := List.ne_nil_of_mem hn
  rw [find_best_route_nonempty hne]
  have hnpn : n ∈ ns.filter fun m => decide (¬(m = 5 ∨ m = 6)) := by
    refine List.mem_filter.mpr ⟨hn, ?_⟩
    simp only [decide_eq_true_eq]
    rintro (rfl | rfl) <;> omega
  have hall : ∀ perm ∈ perms (ns.filter fun m => decide (¬(m = 5 ∨ m = 6))),
      calculate_route_distance distance_matrix ((0 : Int) :: perm) = none := by
    intro perm hp
    have hperm := mem_perms.mp hp
    have hflt := not_mem_filter_waypoints ns
    have h5p : (5 : Int) ∉ perm := fun hc => hflt.1 (hperm.mem_iff.mp hc)
    have h6p : (6 : Int) ∉ perm := fun hc => hflt.2 (hperm.mem_iff.mp hc)
    rw [calculate_both_branch (fun hc => by
        rcases List.mem_cons.mp hc with h' | h'
        · exact absurd h' (by norm_num)
        · exact h5p h')
      (fun hc => by
        rcases List.mem_cons.mp hc with h' | h'
        · exact absurd h' (by norm_num)
        · exact h6p h')]
    apply runCands_none_of_all _ (bothCands_ne_nil perm)
    intro t ht
    have hnperm : n ∈ perm := hperm.mem_iff.mpr hnpn
    have hform : ∃ i j a b, t = ensureHub ((0 : Int) :: insertAt (insertAt perm i a) j b) := by
      rw [bothCands] at ht
      rcases List.mem_append.mp ht with h' | h'
      · obtain ⟨i, j, rfl⟩ := pairCands_decomp h'
        exact ⟨i, j, 5, 6, rfl⟩
      · obtain ⟨i, j, rfl⟩ := pairCands_decomp h'
        exact ⟨i, j, 6, 5, rfl⟩
    obtain ⟨i, j, a, b, rfl⟩ := hform
    have hnt : n ∈ ensureHub ((0 : Int) :: insertAt (insertAt perm i a) j b) :=
      mem_ensureHub_of_mem (List.mem_cons_of_mem _
        (mem_insertAt.mpr (Or.inr (mem_insertAt.mpr (Or.inr hnperm)))))
    refine pathDistance_none_of_bad hnt (ensureHub_getLast? _) (by omega) ?_
    apply pyGet_none_of_big
    have hlen : distance_matrix.length = 9 := by decide
    rw [hlen]
    omega
  have hprm : perms (ns.filter fun m => decide (¬(m = 5 ∨ m = 6))) ≠ [] :=
    List.ne_nil_of_mem (mem_perms.mpr (List.Perm.refl _))
  rw [runMin_none_of_all hall hprm]

lemma tailFullPath_valid {ns q : List Int} (h : TailFullPath ns q) :
    ValidFullPath ns q := by
  obtain ⟨m, hperm, hq | hq⟩ := h
  · refine ⟨m ++ [5, 6], by rw [hq]; simp, hperm.append_right [5, 6]⟩
  · refine ⟨m ++ [6, 5], by rw [hq]; simp, ?_⟩
    exact (hperm.append_right [6, 5]).trans
      (List.Perm.append_left ns (List.Perm.swap 5 6 []))

/-! ## Lemmas about the solution comparator -/

lemma is_better_than_complete_iff {A B : VRPSolution} (hA : A.completed = true)
    (hB : B.completed = true) :
    (is_better_than A B = true ↔
      A.cost < B.cost ∨ (A.cost = B.cost ∧ A.vehicles_used < B.vehicles_used) ∨
      (A.cost = B.cost ∧ A.vehicles_used = B.vehicles_used ∧
        A.total_distance < B.total_distance)) := by
  rw [is_better_than, hA, hB]
  simp only [not_true, if_false]
  split_ifs with h1 h2 h3
  · simp [h1]
  · simp [h1, h2]
  · simp [h1, h2, h3]
  · simp [h1, h2, h3]

lemma is_better_than_asymm (A B : VRPSolution) :
    ¬(is_better_than A B = true ∧ is_better_than B A = true) := by
  rintro ⟨hab, hba⟩
  by_cases hA : A.completed = true <;> by_cases hB : B.completed = true
  · rcases (is_better_than_complete_iff hA hB).mp hab with h | ⟨he, h⟩ | ⟨he, hv, h⟩ <;>
      rcases (is_better_than_complete_iff hB hA).mp hba with h' | ⟨he', h'⟩ | ⟨he', hv', h'⟩
    · exact lt_asymm h h'
    · exact absurd (he' ▸ h) (lt_irrefl _)
    · exact absurd (he' ▸ h) (lt_irrefl _)
    · exact absurd (he ▸ h') (lt_irrefl _)
    · exact lt_asymm h h'
    · exact absurd (hv' ▸ h) (lt_irrefl _)
    · exact absurd (he ▸ h') (lt_irrefl _)
    · exact absurd (hv ▸ h') (lt_irrefl _)
    · exact lt_asymm h h'
  · have hBf : B.completed = false := by simpa using hB
    rw [is_better_than, hA, hBf] at hba
    simp at hba
  · have hAf : A.completed = false := by simpa using hA
    rw [is_better_than, hAf, hB] at hab
    simp at hab
  · have hAf : A.completed = false := by simpa using hA
    have hBf : B.completed = false := by simpa using hB
    rw [is_better_than, hBf] at hab
    simp [hAf] at hab

lemma is_better_than_incomplete {A B : VRPSolution} (hA : A.completed = false)
    (hB : B.completed = true) :
    is_better_than B A = true ∧ is_better_than A B = false := by
  constructor
  · rw [is_better_than, hA]
    simp [hB]
  · rw [is_better_than, hA, hB]
    simp

lemma better_solution_check_eq_is_better_than (B : VRPSolution) (t : List Trip)
    (c fc fu : ℚ) (v : ℕ) (td : ℚ) :
    better_solution_check c v td B =
      is_better_than ⟨t, (c : WithTop ℚ), fc, fu, (v : WithTop ℕ),
        (td : WithTop ℚ), true⟩ B := by
  rw [better_solution_check, is_better_than]
  simp only [not_true, if_false]

/-! ## Lemmas about the pruning condition -/

lemma shouldPrune_iff (nodes : List Int) (best : VRPSolution) (cur : List Trip)
    (avail : List Vehicle) (used : List String) :
    shouldPrune nodes best cur avail used = true ↔
      best.completed = true ∧
        ((trip_fixed_sum cur + trip_fuel_sum cur : ℚ) : WithTop ℚ) +
          min_additional_fixed avail used >
          best.cost * (((11 : ℚ) / 10 : ℚ) : WithTop ℚ) := by
  rw [shouldPrune]
  cases hb : best.completed with
  | false => simp [hb]
  | true => simp

lemma shouldPrune_ignores_nodes (nodes nodes2 : List Int) (best : VRPSolution)
    (cur : List Trip) (avail : List Vehicle) (used : List String) :
    shouldPrune nodes best cur avail used = shouldPrune nodes2 best cur avail used := by
  rw [shouldPrune, shouldPrune]

lemma min_additional_fixed_c2 :
    min_additional_fixed [c2_vehicle] [] = ((110 : ℚ) : WithTop ℚ) := by
  rw [min_additional_fixed]
  simp [c2_vehicle, min_eq_left, le_top]

/-! ## The claims -/

/-- Claim C1 (confirmed): for every waypoint-free set of in-range
delivery-node ids, `find_best_route` succeeds and returns a full path of
globally minimum total distance among all paths that start at the depot
(node 0), visit every input node exactly once, contain each of the two
mandatory waypoints (5 and 6) exactly once, and end at the depot; the
reported distance is the distance of the returned path. -/
theorem claim_c1_route_optimizer_global_minimum (ns : List Int)
    (hr : ∀ n ∈ ns, 0 ≤ n ∧ n < 9) (h0 : (0 : Int) ∉ ns) (h5 : (5 : Int) ∉ ns)
    (h6 : (6 : Int) ∉ ns) :
    ∃ p d f, find_best_route distance_matrix ns = some (p, d, f) ∧
      ValidFullPath ns f ∧ pathDistance distance_matrix f = some d ∧
      ∀ q dq, ValidFullPath ns q → pathDistance distance_matrix q = some dq →
        d ≤ dq :=
  find_best_route_spec hr h0 h5 h6

/-- Witness for C1 at the concrete input `{1}`. -/
theorem claim_c1_witness :
    (∀ n ∈ [(1 : Int)], 0 ≤ n ∧ n < 9) ∧
    (∃ p d f, find_best_route distance_matrix [1] = some (p, d, f) ∧
      ValidFullPath [1] f ∧ pathDistance distance_matrix f = some d ∧
      ∀ q dq, ValidFullPath [1] q → pathDistance distance_matrix q = some dq →
        d ≤ dq) :=
  ⟨by decide, claim_c1_route_optimizer_global_minimum [1] (by decide) (by decide)
    (by decide) (by decide)⟩

/-- Counterexample to claim C2 as stated: with a recorded best of cost
100, an accumulated cost of 0, one unused vehicle of fixed cost 110 and
three unassigned nodes, the spec's lower bound (0 + 110 + 5·3 = 125)
exceeds 100·1.1 = 110, so the claim demands the branch be abandoned —
but the code does not prune (0 + 110 > 110 is false): the per-node fuel
estimate does not participate in the code's comparison. -/
theorem claim_c2_counterexample :
    shouldPrune [1, 2, 3] c2_best [] [c2_vehicle] [] = false ∧
    spec_prune_condition (1 / 10) [1, 2, 3] c2_best [] [c2_vehicle] [] = true := by
  constructor
  · rw [Bool.eq_false_iff]
    intro hc
    obtain ⟨-, hgt⟩ := (shouldPrune_iff _ _ _ _ _).mp hc
    rw [min_additional_fixed_c2] at hgt
    simp only [trip_fixed_sum, trip_fuel_sum, List.map_nil, List.sum_nil,
      add_zero, c2_best] at hgt
    rw [gt_iff_lt] at hgt
    have hq : ((100 : ℚ) * (11 / 10)) < ((0 : ℚ) + 110) := by exact_mod_cast hgt
    norm_num at hq
  · rw [spec_prune_condition, min_additional_fixed_c2]
    simp only [trip_fixed_sum, trip_fuel_sum, List.map_nil, List.sum_nil,
      add_zero, c2_best, Bool.and_eq_true, decide_eq_true_eq]
    refine ⟨by trivial, ?_⟩
    rw [gt_iff_lt, show (([1, 2, 3] : List Int).length) = 3 from rfl]
    exact_mod_cast (by norm_num : (100 : ℚ) * (1 + 1 / 10) < (0 : ℚ) + 110 + 5 * ((3 : ℕ) : ℚ))

/-- Claim C2 (amended): once a complete solution exists, a branch is
abandoned iff (current accumulated cost) + (minimum fixed cost among
remaining unused vehicles) exceeds the best known cost times the
hardcoded factor 11/10; the per-remaining-node minimum fuel-cost
estimate is computed but does not participate (the pruning verdict is
independent of the remaining-node set), and the 10% tolerance is the
literal constant `1.1` in the source, not a configuration value. -/
theorem claim_c2_amended (nodes : List Int) (best : VRPSolution) (cur : List Trip)
    (avail : List Vehicle) (used : List String) :
    (shouldPrune nodes best cur avail used = true ↔
      best.completed = true ∧
        ((trip_fixed_sum cur + trip_fuel_sum cur : ℚ) : WithTop ℚ) +
          min_additional_fixed avail used >
          best.cost * (((11 : ℚ) / 10 : ℚ) : WithTop ℚ)) ∧
    (∀ nodes2, shouldPrune nodes best cur avail used =
      shouldPrune nodes2 best cur avail used) :=
  ⟨shouldPrune_iff nodes best cur avail used,
    fun nodes2 => shouldPrune_ignores_nodes nodes nodes2 best cur avail used⟩

/-- Witness for C2 (amended) at a concrete state: the pruning verdict is
unchanged when all remaining nodes are removed. -/
theorem claim_c2_witness :
    shouldPrune [1, 2, 3] c2_best [] [c2_vehicle] [] =
      shouldPrune [] c2_best [] [c2_vehicle] [] :=
  (claim_c2_amended [1, 2, 3] c2_best [] [c2_vehicle] []).2 []

/-- Counterexample to claim C3 as stated: for the input `{1}` the
returned full path is `[0, 5, 1, 6, 0]` — the delivery node 1 sits
between the two waypoints, so the last three visited positions are not
waypoint-waypoint-depot. -/
theorem claim_c3_counterexample :
    find_best_route distance_matrix [1] = some ([0, 1], 140, [0, 5, 1, 6, 0]) ∧
    waypointsAtTail [0, 5, 1, 6, 0] = false :=
  ⟨by decide, by decide⟩

/-- Claim C3 (amended): the Route Optimizer places each waypoint exactly
once at whichever positions minimise total distance; the path always
ends at the depot, but delivery nodes may follow a waypoint.  The
returned distance is never worse than any path that keeps the waypoints
at the tail. -/
theorem claim_c3_amended (ns p f : List Int) (d : Nat)
    (hr : ∀ n ∈ ns, 0 ≤ n ∧ n < 9) (h0 : (0 : Int) ∉ ns) (h5 : (5 : Int) ∉ ns)
    (h6 : (6 : Int) ∉ ns)
    (hfind : find_best_route distance_matrix ns = some (p, d, f)) :
    (f.count 5 = 1 ∧ f.count 6 = 1 ∧ f.getLast? = some 0) ∧
    ∀ q dq, TailFullPath ns q → pathDistance distance_matrix q = some dq →
      d ≤ dq := by
  obtain ⟨shead, slast, sc5, sc6⟩ := find_best_route_shape hfind
  refine ⟨⟨sc5, sc6, slast⟩, ?_⟩
  obtain ⟨p2, d2, f2, heq, hvalid, hdist, hmin⟩ := find_best_route_spec hr h0 h5 h6
  rw [hfind] at heq
  have hd : d = d2 := congrArg (fun x : List Int × Nat × List Int => x.2.1)
    (Option.some_inj.mp heq)
  intro q dq hq hdq
  rw [hd]
  exact hmin q dq (tailFullPath_valid hq) hdq

/-- Witness for C3 (amended) at the concrete input `{1}`. -/
theorem claim_c3_witness :
    (([0, 5, 1, 6, 0] : List Int).count 5 = 1 ∧
      ([0, 5, 1, 6, 0] : List Int).count 6 = 1 ∧
      ([0, 5, 1, 6, 0] : List Int).getLast? = some 0) ∧
    ∀ q dq, TailFullPath [1] q → pathDistance distance_matrix q = some dq →
      140 ≤ dq :=
  claim_c3_amended [1] [0, 1] [0, 5, 1, 6, 0] 140 (by decide) (by decide)
    (by decide) (by decide) (by decide)

/-- Counterexample to claim C4 as stated: the id `-1` is outside the
index range `0..8` of the distance table, yet the Route Optimizer
silently returns a distance computed via Python's wrapped-around
indexing (row/column 8) instead of failing. -/
theorem claim_c4_counterexample :
    (find_best_route distance_matrix [(-1 : Int)]).isSome = true ∧
    find_best_route distance_matrix [(-1 : Int)] =
      some ([0, -1], 160, [0, 5, 6, -1, 0]) :=
  ⟨by decide, by decide⟩

/-- Claim C4 (amended): an id `≥ 9` in the input makes every distance
lookup raise `IndexError`, so `find_best_route` fails (no silently
substituted distance); but an id in `[-9, -1]` is silently resolved by
Python's wraparound indexing — `-1` yields exactly the distance computed
for node 8. -/
theorem claim_c4_amended :
    (∀ ns n, n ∈ ns → (9 : Int) ≤ n → find_best_route distance_matrix ns = none) ∧
    (find_best_route distance_matrix [(-1 : Int)]).map (fun r => r.2.1) =
      (find_best_route distance_matrix [(8 : Int)]).map (fun r => r.2.1) :=
  ⟨fun _ _ hn h9 => find_best_route_none_of_big hn h9, by decide⟩

/-- Witness for C4 (amended) at the concrete out-of-range input `{9}`. -/
theorem claim_c4_witness :
    (9 : Int) ∈ [(9 : Int)] ∧ find_best_route distance_matrix [(9 : Int)] = none :=
  ⟨by decide, claim_c4_amended.1 [9] 9 (by decide) (by decide)⟩

/-- Counterexample to claim C5 as stated: the demand table does contain
the waypoint ids 5 and 6, each with the non-zero demand pair (0, 2). -/
theorem claim_c5_counterexample :
    (5 : Int) ∈ demandKeys ∧ (6 : Int) ∈ demandKeys ∧
    demandLookup 5 = some (0, 2) ∧ demandLookup 6 = some (0, 2) := by
  decide

/-- Claim C5 (amended): the demand table's keys are `[1, 2, 3, 4, 5, 6]`
— the depot id 0 is indeed absent, but the waypoint ids 5 and 6 are
present (with demand (0, 2) each), so the node set handed to the
Partition Search and thence to the Route Optimizer does contain the
waypoints; `find_best_route` copes by filtering them out of the
permutation set (`[1, 2, 3, 4]` remain). -/
theorem claim_c5_amended :
    demandKeys = [1, 2, 3, 4, 5, 6] ∧ (0 : Int) ∉ demandKeys ∧
    demandLookup 5 = some (0, 2) ∧ demandLookup 6 = some (0, 2) ∧
    (demandKeys.filter fun n => decide (¬(n = 5 ∨ n = 6))) = [1, 2, 3, 4] := by
  decide

/-- Claim C6 (confirmed): `is_better_than` behaves as a strict order
whose induced equivalence makes the comparison total — never do two
solutions each beat the other; any complete solution beats any
incomplete one and not vice versa; among complete solutions the order is
exactly the cost / vehicle-count / distance lexicographic chain; and the
search's inline replacement test equals `is_better_than` applied to the
(complete) candidate and the recorded best, which also accepts whenever
no complete solution has been recorded yet. -/
theorem claim_c6_comparator_total_order :
    ∀ A B : VRPSolution,
      (¬(is_better_than A B = true ∧ is_better_than B A = true)) ∧
      (A.completed = false → B.completed = true →
        is_better_than B A = true ∧ is_better_than A B = false) ∧
      (A.completed = true → B.completed = true →
        (is_better_than A B = true ↔
          A.cost < B.cost ∨ (A.cost = B.cost ∧ A.vehicles_used < B.vehicles_used) ∨
          (A.cost = B.cost ∧ A.vehicles_used = B.vehicles_used ∧
            A.total_distance < B.total_distance))) ∧
      (∀ (t : List Trip) (c fc fu : ℚ) (v : ℕ) (td : ℚ),
        better_solution_check c v td B =
          is_better_than ⟨t, (c : WithTop ℚ), fc, fu, (v : WithTop ℕ),
            (td : WithTop ℚ), true⟩ B) :=
  fun A B =>
    ⟨is_better_than_asymm A B,
      fun hA hB => is_better_than_incomplete hA hB,
      fun hA hB => is_better_than_complete_iff hA hB,
      fun t c fc fu v td => better_solution_check_eq_is_better_than B t c fc fu v td⟩

/-- Witness for C6 at a concrete incomplete/complete pair. -/
theorem claim_c6_witness :
    is_better_than c6_complete initial_best = true ∧
    is_better_than initial_best c6_complete = false :=
  (claim_c6_comparator_total_order initial_best c6_complete).2.1 rfl rfl

/-- Counterexample to claim C7 as stated: node 7 is absent from the
demand table, yet `is_valid_assignment` raises nothing and simply
accepts the subset as if node 7 had zero demand — even with zero
capacity. -/
theorem claim_c7_counterexample :
    demandLookup 7 = none ∧ is_valid_assignment [7] 0 0 = true := by
  decide

/-- Claim C7 (amended): a node id absent from the demand table is
silently skipped by the Capacity Validator — it contributes nothing to
either demand sum, and no error is raised, so the search would continue
as if the node had zero demand. -/
theorem claim_c7_amended (nodes : List Int) (h_cap k_cap : ℕ) (n : Int)
    (h : demandLookup n = none) :
    is_valid_assignment (n :: nodes) h_cap k_cap =
      is_valid_assignment nodes h_cap k_cap := by
  simp [is_valid_assignment, List.filterMap_cons, h]

/-- Witness for C7 (amended) at the concrete unknown node 7. -/
theorem claim_c7_witness :
    demandLookup 7 = none ∧
    is_valid_assignment [7, 1] 5 5 = is_valid_assignment [1] 5 5 :=
  ⟨by decide, claim_c7_amended [1] 5 5 7 (by decide)⟩

/-- Claim C8 (confirmed): whenever the Route Optimizer returns at all
(over any distance table), its full path starts at the depot id 0, ends
at the depot id 0, and contains waypoint 5 exactly once and waypoint 6
exactly once. -/
theorem claim_c8_path_shape (dm : List (List Nat)) (ns p f : List Int) (d : Nat)
    (_h5 : (5 : Int) ∉ ns) (_h6 : (6 : Int) ∉ ns)
    (h : find_best_route dm ns = some (p, d, f)) :
    f.head? = some 0 ∧ f.getLast? = some 0 ∧ f.count 5 = 1 ∧ f.count 6 = 1 :=
  find_best_route_shape h

/-- Witness for C8 at the concrete input `{1}`. -/
theorem claim_c8_witness :
    ((5 : Int) ∉ [(1 : Int)]) ∧
    (([0, 5, 1, 6, 0] : List Int).head? = some 0 ∧
      ([0, 5, 1, 6, 0] : List Int).getLast? = some 0 ∧
      ([0, 5, 1, 6, 0] : List Int).count 5 = 1 ∧
      ([0, 5, 1, 6, 0] : List Int).count 6 = 1) :=
  ⟨by decide, claim_c8_path_shape distance_matrix [1] [0, 1] [0, 5, 1, 6, 0] 140
    (by decide) (by decide) (by decide)⟩

/-- Claim C9 (confirmed): on the empty input set the Route Optimizer
returns depot → waypoint → waypoint → depot, choosing between
`[0, 5, 6, 0]` and `[0, 6, 5, 0]` whichever has smaller total distance,
and `[0, 5, 6, 0]` on an exact tie. -/
theorem claim_c9_empty_input (dm : List (List Nat)) (d1 d2 : Nat)
    (h1 : pathDistance dm [0, 5, 6, 0] = some d1)
    (h2 : pathDistance dm [0, 6, 5, 0] = some d2) :
    (d1 ≤ d2 → find_best_route dm [] = some ([0], d1, [0, 5, 6, 0])) ∧
    (d2 < d1 → find_best_route dm [] = some ([0], d2, [0, 6, 5, 0])) := by
  have hstep : find_best_route dm [] =
      (match pathDistance dm [0, 5, 6, 0], pathDistance dm [0, 6, 5, 0] with
        | some dist1, some dist2 =>
          if dist1 ≤ dist2 then some ([0], dist1, [0, 5, 6, 0])
          else some ([0], dist2, [0, 6, 5, 0])
        | _, _ => none) := rfl
  rw [hstep, h1, h2]
  dsimp only
  constructor
  · intro hle
    rw [if_pos hle]
  · intro hlt
    rw [if_neg (not_le.mpr hlt)]

/-- Witness for C9 on the real distance table (an exact tie at 75, so
the `[0, 5, 6, 0]` ordering is returned). -/
theorem claim_c9_witness :
    pathDistance distance_matrix [0, 5, 6, 0] = some 75 ∧
    find_best_route distance_matrix [] = some ([0], 75, [0, 5, 6, 0]) :=
  ⟨by decide,
    (claim_c9_empty_input distance_matrix 75 75 (by decide) (by decide)).1
      (le_refl 75)⟩

/-- Claim C10 (confirmed): when the search's best solution comes back
with `completed = false`, `solve_vehicle_routing` returns the tuple
`([], 0, 0, 0, 0, 0, False)` — every cost field, the vehicle count and
the total distance are reported as 0 rather than the internal infinite
sentinels, and no exception is raised. -/
theorem claim_c10_infeasible_zero_output (restricted_vehicles : Option (List String))
    (sol : VRPSolution)
    (hfind : find_optimal_solution demandKeys.length demandKeys
      (available_for restricted_vehicles) [] [] initial_best = some sol)
    (hnc : sol.completed = false) :
    solve_vehicle_routing restricted_vehicles = some ([], 0, 0, 0, 0, 0, false) := by
  rw [solve_vehicle_routing]
  rw [hfind]
  simp [hnc]

/-- Witness for C10: restricting the fleet to a nonexistent vehicle name
leaves the search incomplete, and the solver reports all zeros. -/
theorem claim_c10_witness :
    initial_best.completed = false ∧
    solve_vehicle_routing (some ["NoSuchVehicle"]) = some ([], 0, 0, 0, 0, 0, false) :=
  ⟨rfl, claim_c10_infeasible_zero_output (some ["NoSuchVehicle"]) initial_best
    (by decide) rfl⟩
